import Mathlib

/-!
Verification development for the ai-xiutu task-processing core.

The TypeScript services under `electron/main/services` are shallowly embedded:
JS `Map`s become insertion-ordered association lists over `String` keys,
`Date.now()` timestamps become explicit `Nat` parameters (epoch milliseconds),
the SQLite task table becomes a `List Job`, and asynchronous worker events
become explicit state-transition functions.
-/

/-! ### Association-list model of a JS `Map` (insertion-ordered) -/

def lookupKey {β : Type} : List (String × β) → String → Option β
  | [], _ => none
  | p :: l, k => if p.1 = k then some p.2 else lookupKey l k

/-- `Map.set`: replace in place when the key is present, append otherwise. -/
def setKey {β : Type} (l : List (String × β)) (k : String) (v : β) : List (String × β) :=
  if (lookupKey l k).isSome then
    l.map (fun p => if p.1 = k then (k, v) else p)
  else l ++ [(k, v)]

/-- `Map.delete`: drop the entry with the given key (keys are unique in a `Map`). -/
def eraseKey {β : Type} : List (String × β) → String → List (String × β)
  | [], _ => []
  | p :: l, k => if p.1 = k then eraseKey l k else p :: eraseKey l k

/-! ### Job scheduler (`TaskManager`, `src/unnamed/part_001`) -/

inductive TaskStatus
  | pending
  | processing
  | completed
  | failed
  | retrying
deriving DecidableEq, Repr

/-- A row of the `tasks` table / the in-memory `Job` object (`src/types/index.ts`).
`result` is the serialized `ProcessedImage`; timestamps are epoch milliseconds. -/
structure Job where
  id : String
  imageId : String
  templateId : String
  status : TaskStatus
  priority : Int
  createdAt : Nat
  startedAt : Option Nat := none
  completedAt : Option Nat := none
  retryCount : Nat := 0
  maxRetries : Nat := 3
  progress : Nat := 0
  result : Option String := none
  error : Option String := none
  cost : Nat := 0
deriving DecidableEq, Repr

/-- State of a `TaskManager`: the persisted `tasks` table, the in-memory queue,
the ids of live workers, and the scheduling flags. -/
structure TMState where
  db : List Job
  taskQueue : List Job
  workers : List String := []
  isProcessing : Bool := false
  maxConcurrentTasks : Nat := 3
deriving DecidableEq, Repr

/-- `UPDATE tasks SET status, startedAt, completedAt, progress, result, error, cost WHERE id`. -/
def updateTaskInDatabase (st : TMState) (t : Job) : TMState :=
  { st with db := st.db.map (fun r =>
      if r.id = t.id then
        { r with status := t.status, startedAt := t.startedAt, completedAt := t.completedAt,
                 progress := t.progress, result := t.result, error := t.error, cost := t.cost }
      else r) }

/-- `TaskManager.loadTasksFromDatabase`:
`SELECT * FROM tasks WHERE status IN ('pending', 'retrying')` into `taskQueue`. -/
def loadTasksFromDatabase (db : List Job) : List Job :=
  db.filter (fun t => decide (t.status = .pending) || decide (t.status = .retrying))

/-- The `TaskManager` constructor: open the database and load the queue. -/
def tmStartup (db : List Job) : TMState :=
  { db := db, taskQueue := loadTasksFromDatabase db }

/-- First half of `TaskManager.processTask`: mark the task processing,
persist it, and register a worker for it (the worker's messages arrive later). -/
def processTaskStart (st : TMState) (t : Job) (now : Nat) : TMState :=
  let t1 := { t with status := .processing, startedAt := some now, progress := 0 }
  let st1 := { st with taskQueue := st.taskQueue.map (fun u => if u.id = t.id then t1 else u) }
  let st2 := updateTaskInDatabase st1 t1
  { st2 with workers := st2.workers ++ [t.id] }

/-- Loop body of `TaskManager.processQueue`; the fuel is the queue length, which
bounds the number of pending tasks the `while` loop can start. -/
def processQueueGo : Nat → TMState → Nat → TMState
  | 0, st, _ => st
  | Nat.succ n, st, now =>
    if st.taskQueue.length ≠ 0 ∧ st.workers.length < st.maxConcurrentTasks then
      match st.taskQueue.find? (fun t => decide (t.status = .pending)) with
      | some t => processQueueGo n (processTaskStart st t now) now
      | none => st
    else st

/-- `TaskManager.processQueue`: start pending tasks while concurrency slots remain. -/
def processQueue (st : TMState) (now : Nat) : TMState :=
  if st.isProcessing then st
  else
    let st1 := processQueueGo st.taskQueue.length st now
    { st1 with isProcessing := false }

/-- `TaskManager.resumeTask`: force a non-processing queued task back to pending
(progress reset, `result`/`error` untouched) and re-trigger dispatch. -/
def resumeTask (st : TMState) (taskId : String) (now : Nat) : Bool × TMState :=
  match st.taskQueue.find? (fun t => decide (t.id = taskId)) with
  | some t =>
    if t.status ≠ .processing then
      let t1 := { t with status := .pending, progress := 0 }
      let st1 := { st with taskQueue := st.taskQueue.map (fun u => if u.id = taskId then t1 else u) }
      (true, processQueue (updateTaskInDatabase st1 t1) now)
    else (false, st)
  | none => (false, st)

/-- `TaskManager.cancelTask`: terminate the worker, mark the queued task failed
with a sentinel error (its `result` field is not cleared), persist, and splice
it out of the queue. -/
def cancelTask (st : TMState) (taskId : String) (now : Nat) : Bool × TMState :=
  let st0 := { st with workers := st.workers.filter (fun w => decide (¬ w = taskId)) }
  match st0.taskQueue.find? (fun t => decide (t.id = taskId)) with
  | some t =>
    let t1 := { t with status := .failed, error := some "用户取消", completedAt := some now }
    let st1 := { st0 with taskQueue := st0.taskQueue.map (fun u => if u.id = taskId then t1 else u) }
    let st2 := updateTaskInDatabase st1 t1
    (true, { st2 with taskQueue := st2.taskQueue.filter (fun u => decide (¬ u.id = taskId)) })
  | none => (false, st0)

/-- Worker `completed` message handler inside `TaskManager.processTask`. -/
def workerCompleted (st : TMState) (taskId : String) (res : String) (cost : Nat) (now : Nat) :
    TMState :=
  match st.taskQueue.find? (fun t => decide (t.id = taskId)) with
  | some t =>
    let t1 := { t with progress := 100, status := .completed, completedAt := some now,
                       result := some res, cost := cost }
    let st1 := { st with taskQueue := st.taskQueue.map (fun u => if u.id = taskId then t1 else u) }
    let st2 := updateTaskInDatabase st1 t1
    { st2 with workers := st2.workers.filter (fun w => decide (¬ w = taskId)) }
  | none => st

/-- Worker `error` message handler inside `TaskManager.processTask`. -/
def workerErrored (st : TMState) (taskId : String) (msg : String) (now : Nat) : TMState :=
  match st.taskQueue.find? (fun t => decide (t.id = taskId)) with
  | some t =>
    let t1 := { t with progress := 0, status := .failed, error := some msg,
                       completedAt := some now }
    let st1 := { st with taskQueue := st.taskQueue.map (fun u => if u.id = taskId then t1 else u) }
    let st2 := updateTaskInDatabase st1 t1
    { st2 with workers := st2.workers.filter (fun w => decide (¬ w = taskId)) }
  | none => st

/-! ### Job-list query (`TaskManager.getTaskList`) -/

structure TaskFilters where
  status : Option TaskStatus := none
  templateId : Option String := none
  limit : Option Nat := none
deriving DecidableEq, Repr

/-- The generated SQL `WHERE` clause: optional equality tests on status and template. -/
def matchesFilters (f : TaskFilters) (t : Job) : Bool :=
  (match f.status with
   | none => true
   | some s => decide (t.status = s)) &&
  (match f.templateId with
   | none => true
   | some tid => decide (t.templateId = tid))

/-- The `ORDER BY priority DESC, createdAt ASC` relation on rows. -/
def taskOrder (a b : Job) : Prop :=
  b.priority < a.priority ∨ (a.priority = b.priority ∧ a.createdAt ≤ b.createdAt)

instance : DecidableRel taskOrder := fun a b =>
  inferInstanceAs (Decidable (b.priority < a.priority ∨
    (a.priority = b.priority ∧ a.createdAt ≤ b.createdAt)))

instance : IsTotal Job taskOrder := by
  constructor; intro a b; unfold taskOrder; omega

instance : IsTrans Job taskOrder := by
  constructor; intro a b c hab hbc; unfold taskOrder at hab hbc ⊢; omega

/-- `TaskManager.getTaskList`. When `limit` is supplied, the code appends
`LIMIT ?` before `ORDER BY`, producing invalid SQL: `prepare` throws and the
`catch` returns `[]`. Otherwise the query filters and sorts the rows. -/
def getTaskList (db : List Job) (f : TaskFilters) : List Job :=
  match f.limit with
  | some _ => []
  | none => List.insertionSort taskOrder (db.filter (matchesFilters f))

/-! ### Result cache (`CacheManager.ts`) -/

/-- In-memory `CacheEntry` index record (`src/types/index.ts`). The content
hashes, template id and params play no role in the claims; `imagePath` is
determined by the key (`cacheDir/<key>.cache`), so it is not repeated here. -/
structure CacheEntry where
  key : String
  createdAt : Nat
  lastAccessed : Nat
  accessCount : Nat
  size : Nat
deriving DecidableEq, Repr

/-- State of a `CacheManager`: the in-memory index (`cacheMap`) and the on-disk
`.cache` files keyed by cache key. A file stores `JSON.stringify(data)` and
`get` returns `JSON.parse` of it; for JSON-serializable data that round-trip is
the identity, so the model stores the payload itself. -/
structure CMState where
  cacheMap : List (String × CacheEntry)
  files : List (String × String)
  maxEntries : Nat
  maxCacheSize : Nat
deriving DecidableEq, Repr

/-- `CacheManager.getTotalCacheSize`: sum of the entry sizes. -/
def getTotalCacheSize (st : CMState) : Nat :=
  (st.cacheMap.map (fun p => p.2.size)).sum

/-- `CacheManager.delete`: drop the index entry and unlink its payload file. -/
def cmDelete (st : CMState) (cacheKey : String) : Bool × CMState :=
  match lookupKey st.cacheMap cacheKey with
  | some _ =>
    (true, { st with cacheMap := eraseKey st.cacheMap cacheKey,
                     files := eraseKey st.files cacheKey })
  | none => (false, st)

/-- Ascending comparison on `lastAccessed`, the comparator of `cleanupCache`'s
stable `Array.prototype.sort`. -/
def leLastAccessed (a b : String × CacheEntry) : Prop :=
  a.2.lastAccessed ≤ b.2.lastAccessed

instance : DecidableRel leLastAccessed := fun a b =>
  inferInstanceAs (Decidable (a.2.lastAccessed ≤ b.2.lastAccessed))

instance : IsTotal (String × CacheEntry) leLastAccessed :=
  ⟨fun a b => Nat.le_total a.2.lastAccessed b.2.lastAccessed⟩

instance : IsTrans (String × CacheEntry) leLastAccessed :=
  ⟨fun _ _ _ hab hbc => Nat.le_trans hab hbc⟩

/-- The deletion batch of `CacheManager.cleanupCache`: the first
`Math.floor(entries.length * 0.2)` entries after the ascending stable sort by
`lastAccessed`. For every array length `n` the float expression
`Math.floor(n * 0.2)` evaluates to `n / 5` (natural division). -/
def cleanupVictims (st : CMState) : List (String × CacheEntry) :=
  (List.insertionSort leLastAccessed st.cacheMap).take (st.cacheMap.length / 5)

/-- `CacheManager.cleanupCache`: delete each victim in order. -/
def cleanupCache (st : CMState) : CMState :=
  (cleanupVictims st).foldl (fun s p => (cmDelete s p.1).2) st

/-- `CacheManager.checkCacheLimits`: clean up when the entry count or the total
payload size strictly exceeds its configured maximum. -/
def checkCacheLimits (st : CMState) : CMState :=
  if st.cacheMap.length > st.maxEntries ∨ getTotalCacheSize st > st.maxCacheSize then
    cleanupCache st
  else st

/-- `CacheManager.get` at time `now`: miss when the index has no entry; when the
index entry exists but its file is gone, drop the stale entry and miss;
otherwise bump `lastAccessed`/`accessCount` on the live entry object and return
the parsed payload. -/
def cmGet (st : CMState) (cacheKey : String) (now : Nat) : Option String × CMState :=
  match lookupKey st.cacheMap cacheKey with
  | none => (none, st)
  | some entry =>
    match lookupKey st.files cacheKey with
    | none => (none, { st with cacheMap := eraseKey st.cacheMap cacheKey })
    | some data =>
      let entry1 := { entry with lastAccessed := now, accessCount := entry.accessCount + 1 }
      (some data,
        { st with cacheMap :=
            st.cacheMap.map (fun p => if p.1 = cacheKey then (cacheKey, entry1) else p) })

/-- An index entry freshly recorded by `CacheManager.set`. -/
def newCacheEntry (cacheKey data : String) (now : Nat) : CacheEntry :=
  { key := cacheKey, createdAt := now, lastAccessed := now, accessCount := 1,
    size := data.length }

/-- `CacheManager.set` at time `now`: write the payload file, record a fresh
entry with `accessCount` 1 and the file's byte size, then evaluate the capacity
limits (the index save that follows does not change the state). -/
def cmSet (st : CMState) (cacheKey : String) (data : String) (now : Nat) : CMState :=
  let st1 : CMState :=
    { st with files := setKey st.files cacheKey data,
              cacheMap := setKey st.cacheMap cacheKey (newCacheEntry cacheKey data now) }
  checkCacheLimits st1

/-! ### Concrete fixtures for the scheduler claims -/

/-- A task persisted as `processing` by a run that crashed. -/
def stuckTask : Job :=
  { id := "task_1", imageId := "img_1", templateId := "tpl", status := .processing,
    priority := 5, createdAt := 100, startedAt := some 150, progress := 40 }

/-- A task that failed (its `error` is set) and still sits in the ready set. -/
def failedTask : Job :=
  { id := "task_2", imageId := "img_2", templateId := "tpl", status := .failed,
    priority := 5, createdAt := 100, completedAt := some 300,
    error := some "API调用失败" }

/-- A scheduler state holding `failedTask`, with concurrency slots free. -/
def tmWithFailed : TMState :=
  { db := [failedTask], taskQueue := [failedTask] }

/-- The `CacheManager` constructor state: empty index, 1 GB size limit,
1000-entry limit. -/
def cacheManagerInit : CMState :=
  { cacheMap := [], files := [], maxEntries := 1000, maxCacheSize := 1024 * 1024 * 1024 }

/-- A cache index one entry over its entry limit, used to exercise eviction. -/
def stCacheOver : CMState :=
  { cacheMap :=
      [("a", { key := "a", createdAt := 0, lastAccessed := 1, accessCount := 1, size := 1 }),
       ("b", { key := "b", createdAt := 0, lastAccessed := 2, accessCount := 1, size := 1 }),
       ("c", { key := "c", createdAt := 0, lastAccessed := 3, accessCount := 1, size := 1 }),
       ("d", { key := "d", createdAt := 0, lastAccessed := 4, accessCount := 1, size := 1 }),
       ("e", { key := "e", createdAt := 0, lastAccessed := 5, accessCount := 1, size := 1 })],
    files := [], maxEntries := 4, maxCacheSize := 1024 * 1024 * 1024 }

/-! ### Provider dispatcher (`ApiManager.ts`) -/

/-- Provider configuration (`src/types/index.ts` `ApiConfig` plus the fields the
service adds: id, name, enabled, isCustom, authType). -/
structure ApiConfig where
  id : String
  provider : String
  name : String
  apiKey : String
  endpoint : String := ""
  model : String := ""
  maxRetries : Nat := 3
  retryDelay : Nat := 1000
  rateLimit : Nat := 3
  enabled : Bool
  isCustom : Bool
  authType : String := "bearer"
deriving DecidableEq, Repr

/-- State of an `ApiManager`: the HTTP-client registry (by id), the config
registry, the per-provider rate-limit windows, and the current provider. -/
structure AMState where
  providers : List String
  configs : List (String × ApiConfig)
  rateLimiter : List (String × List Nat)
  currentProviderId : String
deriving DecidableEq, Repr

/-- The built-in doubao provider of `initializeDefaultProviders` (its key comes
from the environment). -/
def doubaoConfig (key : String) : ApiConfig :=
  { id := "doubao", provider := "doubao", name := "豆包Seedream 4.0", apiKey := key,
    endpoint := "https://ark.cn-beijing.volces.com/api/v3/seedream", model := "seedream-v3",
    enabled := true, isCustom := false, authType := "bearer" }

/-- The built-in gemini provider of `initializeDefaultProviders` (disabled by
default). -/
def geminiConfig (key : String) : ApiConfig :=
  { id := "gemini", provider := "gemini", name := "Google Gemini 3 Pro", apiKey := key,
    endpoint := "https://generativelanguage.googleapis.com/v1", model := "gemini-3-pro-image",
    enabled := false, isCustom := false, authType := "header" }

/-- The `ApiManager` constructor: register the two built-in providers and point
at doubao. -/
def initApiManager (doubaoKey geminiKey : String) : AMState :=
  { providers := ["doubao", "gemini"],
    configs := [("doubao", doubaoConfig doubaoKey), ("gemini", geminiConfig geminiKey)],
    rateLimiter := [],
    currentProviderId := "doubao" }

/-- The `recentRequests` local of `checkRateLimit`: timestamps of the last
second (`now - ts < 1000`, truncated subtraction as timestamps never exceed
`now` for a monotone clock). -/
def recentWindow (st : AMState) (provider : String) (now : Nat) : List Nat :=
  ((lookupKey st.rateLimiter provider).getD []).filter (fun ts => decide (now - ts < 1000))

/-- `ApiManager.checkRateLimit`: reject and leave all state untouched when the
1-second window already holds `rateLimit` timestamps; otherwise store the
pruned window extended with `now` and admit. When the provider has no config,
the JS comparison `length >= undefined` is false, so the admit branch runs. -/
def checkRateLimit (st : AMState) (provider : String) (now : Nat) : Bool × AMState :=
  match lookupKey st.configs provider with
  | some cfg =>
    if (recentWindow st provider now).length ≥ cfg.rateLimit then (false, st)
    else
      (true,
        { st with
          rateLimiter := setKey st.rateLimiter provider (recentWindow st provider now ++ [now]) })
  | none =>
    (true,
      { st with
        rateLimiter := setKey st.rateLimiter provider (recentWindow st provider now ++ [now]) })

structure TemplateParams where
  strength : Nat := 0
  guidanceScale : Nat := 0
  steps : Nat := 0
  resolutionWidth : Nat := 1024
  resolutionHeight : Nat := 1024
  quality : String := "balanced"
deriving DecidableEq, Repr

structure ApiRequest where
  imageData : String
  prompt : String
  negativePrompt : Option String := none
  params : TemplateParams
deriving DecidableEq, Repr

structure ApiResponse where
  success : Bool
  imageData : Option String := none
  cost : Option Nat := none
  error : Option String := none
  processingTime : Nat := 0
deriving DecidableEq, Repr

/-- `ApiManager.calculateCost`, scaled to hundredths (source: 0.01–0.08). -/
def calculateCost (cfg : ApiConfig) (params : TemplateParams) : Nat :=
  if cfg.provider = "doubao" then
    if params.resolutionWidth * params.resolutionHeight ≤ 1024 * 1024 then 1
    else if params.resolutionWidth * params.resolutionHeight ≤ 1920 * 1080 then 2
    else 3
  else if cfg.provider = "gemini" then 8
  else 5

/-- The `catch` block's fallback pool: every other enabled, credentialed
provider, in registry insertion order. -/
def availableProviders (st : AMState) : List ApiConfig :=
  (st.configs.map Prod.snd).filter
    (fun c => c.enabled && decide (c.apiKey ≠ "") && decide (c.id ≠ st.currentProviderId))

/-- The `try` block of `ApiManager.processImage`. The outbound network call
(with its Axios-level retries) is abstracted by `callOutcome`: `some img` for a
successful response, `none` for a call that ultimately throws. An `error`
result carries the message and the state at the throw (rate-limiter mutations
persist). -/
def attemptCall (callOutcome : ApiConfig → Option String) (now : Nat) (req : ApiRequest)
    (st : AMState) : Except (String × AMState) (ApiResponse × AMState) :=
  match lookupKey st.configs st.currentProviderId with
  | none => .error ("API provider " ++ st.currentProviderId ++ " not configured", st)
  | some cfg =>
    if cfg.enabled = false ∨ cfg.apiKey = "" then
      .error ("API provider " ++ st.currentProviderId ++ " not configured", st)
    else
      match checkRateLimit st st.currentProviderId now with
      | (false, st1) => .error ("Rate limit exceeded for " ++ st.currentProviderId, st1)
      | (true, st1) =>
        if cfg.provider = "doubao" ∨ cfg.provider = "gemini" ∨ cfg.isCustom = true then
          match callOutcome cfg with
          | some img =>
            .ok ({ success := true, imageData := some img,
                   cost := some (calculateCost cfg req.params), processingTime := 0 }, st1)
          | none => .error ("API call failed", st1)
        else .error ("Unsupported API provider: " ++ cfg.provider, st1)

/-- `ApiManager.processImage` under fuel semantics: each recursion level of the
source's failover (`return this.processImage(request)` in the `catch`) consumes
one unit of fuel; `none` means the computation is still recursing at that
depth. The source has no hop counter, so the fuel is the only bound. -/
def processImageFuel (callOutcome : ApiConfig → Option String) (now : Nat) (req : ApiRequest) :
    Nat → AMState → Option (ApiResponse × AMState)
  | 0, _ => none
  | Nat.succ fuel, st =>
    match attemptCall callOutcome now req st with
    | .ok r => some r
    | .error (msg, st1) =>
      match availableProviders st1 with
      | fallback :: _ =>
        processImageFuel callOutcome now req fuel { st1 with currentProviderId := fallback.id }
      | [] => some ({ success := false, error := some msg, processingTime := 0 }, st1)

/-- `ApiManager.addCustomProvider`: id is `custom_` + `Date.now()`; the config
is stored with `isCustom` forced to true and a client is registered. -/
def addCustomProvider (st : AMState) (cfg : ApiConfig) (now : Nat) : String × AMState :=
  ("custom_" ++ toString now,
    { st with
      providers :=
        if ("custom_" ++ toString now) ∈ st.providers then st.providers
        else st.providers ++ ["custom_" ++ toString now],
      configs := setKey st.configs ("custom_" ++ toString now)
        { cfg with id := "custom_" ++ toString now, isCustom := true } })

/-- `ApiManager.removeCustomProvider`: only a registered custom config is
removed (client, config and rate window); deleting the active provider resets
the pointer to doubao. Otherwise returns false leaving everything unchanged. -/
def removeCustomProvider (st : AMState) (id : String) : Bool × AMState :=
  match lookupKey st.configs id with
  | some config =>
    if config.isCustom then
      (true,
        { providers := st.providers.filter (fun p => decide (¬ p = id)),
          configs := eraseKey st.configs id,
          rateLimiter := eraseKey st.rateLimiter id,
          currentProviderId :=
            if st.currentProviderId = id then "doubao" else st.currentProviderId })
    else (false, st)
  | none => (false, st)

inductive AMOp
  | add (cfg : ApiConfig) (now : Nat)
  | remove (id : String)

def applyAMOp (st : AMState) (op : AMOp) : AMState :=
  match op with
  | .add cfg now => (addCustomProvider st cfg now).2
  | .remove id => (removeCustomProvider st id).2

def runAMOps : AMState → List AMOp → AMState
  | st, [] => st
  | st, op :: ops => runAMOps (applyAMOp st op) ops

/-- Both built-in providers are registered, with `isCustom` false. -/
def hasBuiltins (st : AMState) : Prop :=
  (∃ c, lookupKey st.configs "doubao" = some c ∧ c.isCustom = false)
  ∧ (∃ c, lookupKey st.configs "gemini" = some c ∧ c.isCustom = false)

/-- Feed a sequence of call timestamps to `checkRateLimit` for one provider,
collecting the admitted timestamps. -/
def runCalls (st : AMState) (provider : String) : List Nat → AMState × List Nat
  | [] => (st, [])
  | t :: ts =>
    match checkRateLimit st provider t with
    | (ok, st1) =>
      match runCalls st1 provider ts with
      | (stFinal, admitted) => (stFinal, if ok then t :: admitted else admitted)

/-- A 1-second window anchored at `x`: the half-open interval `[x, x + 1000)`. -/
def inWindow (x s : Nat) : Bool :=
  decide (x ≤ s) && decide (s < x + 1000)

/-! ### Ingestion watcher (`HotFolderManager`, `src/unnamed/part_001`) -/

structure HotFolderConfig where
  enabled : Bool
  inputPath : String
  outputPath : String
  templateId : String
  filePatterns : List String
  autoStart : Bool
deriving DecidableEq, Repr

/-- The task data `createTaskForFile` submits to the `TaskManager`. -/
structure Submission where
  sourcePath : String
  templateId : String
  priority : Int := 5
  maxRetries : Nat := 3
deriving DecidableEq, Repr

/-- State of a `HotFolderManager`: the claimed-path set and the submissions it
has produced (the `TaskManager.addTask` calls). -/
structure HFState where
  isRunning : Bool := true
  processedFiles : List String := []
  config : HotFolderConfig
  submissions : List Submission := []
deriving DecidableEq, Repr

/-- `HotFolderManager.createTaskForFile` (success path): stage the file, submit
a task with the configured template at priority 5, and claim the path. -/
def createTaskForFile (st : HFState) (filePath : String) : HFState :=
  { st with
    submissions := st.submissions ++
      [{ sourcePath := filePath, templateId := st.config.templateId }],
    processedFiles := st.processedFiles ++ [filePath] }

/-- `HotFolderManager.handleFileAdded`. `regexTest pat name` abstracts
`new RegExp(pat.replace(/\*/g, ".*"), "i").test(name)`. Order of the checks is
the source's: claimed path, pattern, minimum size, autoStart. -/
def handleFileAdded (regexTest : String → String → Bool) (st : HFState)
    (filePath fileName : String) (fileSize : Nat) : HFState :=
  if filePath ∈ st.processedFiles then st
  else if ¬ st.config.filePatterns.any (fun pat => regexTest pat fileName) then st
  else if fileSize < 1024 then st
  else if st.config.autoStart then createTaskForFile st filePath
  else st

/-- `HotFolderManager.handleFileChanged`: delegates to `handleFileAdded`. -/
def handleFileChanged (regexTest : String → String → Bool) (st : HFState)
    (filePath fileName : String) (fileSize : Nat) : HFState :=
  handleFileAdded regexTest st filePath fileName fileSize

/-- Both built-in providers enabled and credentialed. -/
def doubaoEnabled : ApiConfig := doubaoConfig "key-a"

def geminiEnabled : ApiConfig := { geminiConfig "key-b" with enabled := true }

/-- Dispatcher state with two enabled, credentialed providers. -/
def twoFailingState : AMState :=
  { providers := ["doubao", "gemini"],
    configs := [("doubao", doubaoEnabled), ("gemini", geminiEnabled)],
    rateLimiter := [],
    currentProviderId := "doubao" }

def testRequest : ApiRequest :=
  { imageData := "img", prompt := "test", params := {} }

/-- Dispatcher state whose doubao window is already full (3 recent calls). -/
def fullWindowState : AMState :=
  { initApiManager "key-a" "key-b" with rateLimiter := [("doubao", [0, 0, 0])] }

def hotCfg : HotFolderConfig :=
  { enabled := true, inputPath := "/in", outputPath := "/out", templateId := "tpl",
    filePatterns := ["*.jpg"], autoStart := true }

/-- A watcher that already processed `/in/a.jpg` this run. -/
def hfProcessed : HFState :=
  { config := hotCfg, processedFiles := ["/in/a.jpg"],
    submissions := [{ sourcePath := "/in/a.jpg", templateId := "tpl" }] }

/-! ### Theorems for the scheduler claims -/

/-- **C2.** The claim says jobs persisted as `processing` by a crashed run are
re-queued as pending on startup. The code's `loadTasksFromDatabase` selects only
`status IN ('pending','retrying')`: a `processing` row is neither loaded into
the ready set nor rewritten, so it is dropped, contradicting the claim. -/
theorem c2_processing_rows_dropped_on_startup (db : List Job) (t : Job)
    (_hmem : t ∈ db) (hst : t.status = .processing) :
    t ∉ (tmStartup db).taskQueue ∧ (tmStartup db).db = db ∧ t.status ≠ .pending := by
  refine ⟨?_, rfl, by rw [hst]; intro h; cases h⟩
  intro hq
  have := List.of_mem_filter hq
  rw [hst] at this
  simp at this

/-- Witness for C2 at the concrete crashed-run row `stuckTask`. -/
theorem c2_witness :
    stuckTask ∉ (tmStartup [stuckTask]).taskQueue ∧
      (tmStartup [stuckTask]).db = [stuckTask] ∧ stuckTask.status ≠ .pending :=
  c2_processing_rows_dropped_on_startup [stuckTask] stuckTask (by decide) (by decide)

/-- **C3.** The claim says `result`/`error` are both absent while a job is not
terminal, after every scheduler operation. Counter-evaluation: `resumeTask` on a
failed job forces it back to `pending` (and dispatch then starts it) without
clearing `error`, so a non-terminal job carries an error message. -/
theorem c3_resume_leaves_stale_error :
    ((resumeTask tmWithFailed "task_2" 400).2.taskQueue.find?
        (fun t => decide (t.id = "task_2"))).map (fun t => (t.status, t.error)) =
      some (.processing, some "API调用失败") ∧
    (resumeTask tmWithFailed "task_2" 400).1 = true := by
  constructor
  · rfl
  · rfl

/-- **C7.** `getTaskList` with any combination of the optional status and
template filters returns exactly the rows matching the filters, sorted by
priority descending and, within equal priority, by `createdAt` ascending. -/
theorem c7_query_filters_and_orders (db : List Job) (fs : Option TaskStatus)
    (ft : Option String) :
    List.Perm (getTaskList db { status := fs, templateId := ft })
        (db.filter (matchesFilters { status := fs, templateId := ft })) ∧
      List.Sorted taskOrder (getTaskList db { status := fs, templateId := ft }) := by
  constructor
  · exact List.perm_insertionSort taskOrder _
  · exact List.sorted_insertionSort taskOrder _

/-! ### Association-list lemmas -/

theorem lookupKey_eq_none_iff {β : Type} {l : List (String × β)} {k : String} :
    lookupKey l k = none ↔ ∀ p ∈ l, p.1 ≠ k := by
  induction l with
  | nil => simp [lookupKey]
  | cons p l ih =>
    by_cases h : p.1 = k
    · simp [lookupKey, h]
    · simp [lookupKey, h, ih]

theorem mem_of_lookupKey_eq_some {β : Type} {l : List (String × β)} {k : String} {v : β}
    (h : lookupKey l k = some v) : (k, v) ∈ l := by
  induction l with
  | nil => simp [lookupKey] at h
  | cons p l ih =>
    by_cases hp : p.1 = k
    · obtain ⟨a, b⟩ := p
      dsimp at hp
      subst hp
      simp [lookupKey] at h
      subst h
      exact List.mem_cons_self _ _
    · simp [lookupKey, hp] at h
      exact List.mem_cons_of_mem _ (ih h)

theorem lookupKey_append {β : Type} (l₁ l₂ : List (String × β)) (k : String) :
    lookupKey (l₁ ++ l₂) k =
      match lookupKey l₁ k with
      | some v => some v
      | none => lookupKey l₂ k := by
  induction l₁ with
  | nil => simp [lookupKey]
  | cons p l ih =>
    by_cases h : p.1 = k <;> simp [lookupKey, h, ih]

theorem lookupKey_mapReplace_self {β : Type} {l : List (String × β)} {k : String} (v : β)
    (h : (lookupKey l k).isSome) :
    lookupKey (l.map (fun p => if p.1 = k then (k, v) else p)) k = some v := by
  induction l with
  | nil => simp [lookupKey] at h
  | cons p l ih =>
    by_cases hp : p.1 = k
    · simp [lookupKey, hp]
    · simp [lookupKey, hp] at h ⊢
      exact ih h

theorem lookupKey_mapReplace_ne {β : Type} {l : List (String × β)} {k k' : String} (v : β)
    (h : k' ≠ k) :
    lookupKey (l.map (fun p => if p.1 = k then (k, v) else p)) k' = lookupKey l k' := by
  induction l with
  | nil => simp
  | cons p l ih =>
    by_cases hp : p.1 = k
    · have h1 : k ≠ k' := Ne.symm h
      have h2 : ¬ p.1 = k' := by rw [hp]; exact h1
      simp [lookupKey, hp, h1, h2, ih]
    · have hhead : (if p.1 = k then ((k, v) : String × β) else p) = p := if_neg hp
      rw [List.map_cons, hhead, lookupKey, lookupKey]
      by_cases hk : p.1 = k'
      · rw [if_pos hk, if_pos hk]
      · rw [if_neg hk, if_neg hk, ih]

theorem lookupKey_setKey_self {β : Type} (l : List (String × β)) (k : String) (v : β) :
    lookupKey (setKey l k v) k = some v := by
  unfold setKey
  by_cases h : (lookupKey l k).isSome
  · rw [if_pos h]
    exact lookupKey_mapReplace_self v h
  · rw [if_neg h, lookupKey_append]
    rw [Option.not_isSome_iff_eq_none.mp h]
    simp [lookupKey]

theorem lookupKey_setKey_ne {β : Type} (l : List (String × β)) {k k' : String} (v : β)
    (h : k' ≠ k) : lookupKey (setKey l k v) k' = lookupKey l k' := by
  unfold setKey
  split
  · exact lookupKey_mapReplace_ne v h
  · rw [lookupKey_append]
    rcases hl : lookupKey l k' with _ | w <;> simp [lookupKey, Ne.symm h]

theorem eraseKey_eq_filter {β : Type} (l : List (String × β)) (k : String) :
    eraseKey l k = l.filter (fun p => decide (¬ p.1 = k)) := by
  induction l with
  | nil => rfl
  | cons p l ih =>
    by_cases hp : p.1 = k
    · rw [eraseKey, if_pos hp, ih, List.filter_cons, if_neg (by simp [hp])]
    · rw [eraseKey, if_neg hp, ih, List.filter_cons, if_pos (by simp [hp])]

theorem lookupKey_eraseKey {β : Type} (l : List (String × β)) (k k' : String) :
    lookupKey (eraseKey l k) k' = if k' = k then none else lookupKey l k' := by
  induction l with
  | nil => simp [eraseKey, lookupKey]
  | cons p l ih =>
    by_cases hp : p.1 = k
    · rw [eraseKey, if_pos hp, ih]
      by_cases hk : k' = k
      · simp [hk]
      · have hne : ¬ p.1 = k' := by rw [hp]; exact fun hh => hk hh.symm
        simp [hk, lookupKey, hne]
    · rw [eraseKey, if_neg hp, lookupKey]
      by_cases hk : p.1 = k'
      · have hne : ¬ k' = k := by rw [← hk]; exact fun hh => hp hh
        simp [lookupKey, hk, hne]
      · simp [lookupKey, hk, ih]

theorem eraseKey_eq_self {β : Type} {l : List (String × β)} {k : String}
    (h : lookupKey l k = none) : eraseKey l k = l := by
  rw [eraseKey_eq_filter]
  apply List.filter_eq_self.mpr
  intro p hp
  simpa using lookupKey_eq_none_iff.mp h p hp

theorem mem_setKey {β : Type} {l : List (String × β)} {k : String} {v : β} {p : String × β}
    (hp : p ∈ setKey l k v) : p = (k, v) ∨ (p ∈ l ∧ p.1 ≠ k) := by
  unfold setKey at hp
  by_cases h : (lookupKey l k).isSome
  · rw [if_pos h] at hp
    obtain ⟨q, hq, hfq⟩ := List.mem_map.mp hp
    by_cases hq1 : q.1 = k
    · left; rw [← hfq]; simp [hq1]
    · right
      rw [← hfq]
      simp only [hq1, if_false]
      exact ⟨hq, hq1⟩
  · rw [if_neg h] at hp
    rcases List.mem_append.mp hp with h1 | h1
    · right
      refine ⟨h1, ?_⟩
      exact lookupKey_eq_none_iff.mp (Option.not_isSome_iff_eq_none.mp h) p h1
    · left; simpa using h1

theorem keys_nodup_setKey {β : Type} {l : List (String × β)} {k : String} {v : β}
    (h : (l.map Prod.fst).Nodup) : ((setKey l k v).map Prod.fst).Nodup := by
  unfold setKey
  by_cases hs : (lookupKey l k).isSome
  · rw [if_pos hs]
    have heq : (l.map (fun p => if p.1 = k then (k, v) else p)).map Prod.fst
        = l.map Prod.fst := by
      rw [List.map_map]
      apply List.map_congr_left
      intro p _
      by_cases hp1 : p.1 = k <;> simp [Function.comp, hp1]
    rw [heq]; exact h
  · rw [if_neg hs, List.map_append]
    rw [List.nodup_append]
    refine ⟨h, List.nodup_singleton k, ?_⟩
    intro a ha hb
    simp only [List.map_cons, List.map_nil, List.mem_singleton] at hb
    subst hb
    obtain ⟨q, hq, hq1⟩ := List.mem_map.mp ha
    exact lookupKey_eq_none_iff.mp (Option.not_isSome_iff_eq_none.mp hs) q hq hq1

theorem lookupKey_unique {β : Type} {l : List (String × β)}
    (h : (l.map Prod.fst).Nodup) {k : String} {a b : β}
    (ha : (k, a) ∈ l) (hb : (k, b) ∈ l) : a = b := by
  induction l with
  | nil => cases ha
  | cons p l ih =>
    rw [List.map_cons, List.nodup_cons] at h
    rcases List.mem_cons.mp ha with ha1 | ha1 <;> rcases List.mem_cons.mp hb with hb1 | hb1
    · rw [← ha1] at hb1
      injection hb1 with _ h2
      exact h2.symm
    · exfalso
      apply h.1
      rw [← ha1]
      exact List.mem_map.mpr ⟨(k, b), hb1, rfl⟩
    · exfalso
      apply h.1
      rw [← hb1]
      exact List.mem_map.mpr ⟨(k, a), ha1, rfl⟩
    · exact ih h.2 ha1 hb1

theorem lookupKey_filter_not_mem {β : Type} (l : List (String × β)) (ks : List String)
    (k : String) (h : ¬ k ∈ ks) :
    lookupKey (l.filter (fun p => decide (¬ p.1 ∈ ks))) k = lookupKey l k := by
  induction l with
  | nil => simp
  | cons p l ih =>
    by_cases hp : p.1 = k
    · have hpk : ¬ p.1 ∈ ks := by rw [hp]; exact h
      rw [List.filter_cons_of_pos (by simpa using hpk)]
      simp [lookupKey, hp]
    · by_cases hm : p.1 ∈ ks
      · rw [List.filter_cons_of_neg (by simpa using hm)]
        rw [ih, lookupKey, if_neg hp]
      · rw [List.filter_cons_of_pos (by simpa using hm)]
        rw [lookupKey, lookupKey, if_neg hp, if_neg hp, ih]

/-! ### Cache cleanup lemmas -/

theorem foldlDelete_cacheMap (vs : List (String × CacheEntry)) (st : CMState) :
    (vs.foldl (fun s p => (cmDelete s p.1).2) st).cacheMap
      = st.cacheMap.filter (fun p => decide (¬ p.1 ∈ vs.map Prod.fst)) := by
  induction vs generalizing st with
  | nil => simp
  | cons v vs ih =>
    rw [List.foldl_cons, ih]
    rcases hl : lookupKey st.cacheMap v.1 with _ | e
    · rw [show (cmDelete st v.1).2 = st by rw [cmDelete, hl]]
      apply List.filter_congr
      intro p hp
      have hne := lookupKey_eq_none_iff.mp hl p hp
      simp [List.mem_cons, hne]
    · rw [show (cmDelete st v.1).2
          = { st with cacheMap := eraseKey st.cacheMap v.1,
                      files := eraseKey st.files v.1 } by rw [cmDelete, hl]]
      show (eraseKey st.cacheMap v.1).filter _ = _
      rw [eraseKey_eq_filter, List.filter_filter]
      apply List.filter_congr
      intro p _
      by_cases h1 : p.1 = v.1 <;> by_cases h2 : p.1 ∈ vs.map Prod.fst <;>
        simp [List.mem_cons, h1, h2]

theorem foldlDelete_files_lookup (vs : List (String × CacheEntry)) (st : CMState) (k : String)
    (h : ¬ k ∈ vs.map Prod.fst) :
    lookupKey (vs.foldl (fun s p => (cmDelete s p.1).2) st).files k = lookupKey st.files k := by
  induction vs generalizing st with
  | nil => rfl
  | cons v vs ih =>
    have hk : ¬ k = v.1 ∧ ¬ k ∈ vs.map Prod.fst := by
      constructor
      · intro hh; exact h (by simp [hh])
      · intro hh; exact h (by simp [hh])
    rw [List.foldl_cons, ih _ hk.2]
    rcases hl : lookupKey st.cacheMap v.1 with _ | e
    · rw [show (cmDelete st v.1).2 = st by rw [cmDelete, hl]]
    · rw [show (cmDelete st v.1).2
          = { st with cacheMap := eraseKey st.cacheMap v.1,
                      files := eraseKey st.files v.1 } by rw [cmDelete, hl]]
      show lookupKey (eraseKey st.files v.1) k = _
      rw [lookupKey_eraseKey, if_neg hk.1]

theorem mem_checkCacheLimits {st : CMState} {p : String × CacheEntry}
    (hp : p ∈ (checkCacheLimits st).cacheMap) : p ∈ st.cacheMap := by
  unfold checkCacheLimits at hp
  split at hp
  · unfold cleanupCache at hp
    rw [foldlDelete_cacheMap] at hp
    exact List.mem_of_mem_filter hp
  · exact hp

theorem keys_nodup_checkCacheLimits {st : CMState}
    (h : (st.cacheMap.map Prod.fst).Nodup) :
    (((checkCacheLimits st).cacheMap).map Prod.fst).Nodup := by
  unfold checkCacheLimits
  split
  · unfold cleanupCache
    rw [foldlDelete_cacheMap]
    exact List.Nodup.sublist ((List.filter_sublist _).map Prod.fst) h
  · exact h

/-- The entry holding the strictly largest `lastAccessed` never lands in the
least-recently-accessed deletion batch. -/
theorem max_key_not_in_victims (l : List (String × CacheEntry)) (k : String) (e : CacheEntry)
    (hnd : (l.map Prod.fst).Nodup) (hmem : (k, e) ∈ l)
    (hmax : ∀ p ∈ l, p.1 ≠ k → p.2.lastAccessed < e.lastAccessed) :
    ¬ k ∈ (((List.insertionSort leLastAccessed l).take (l.length / 5)).map Prod.fst) := by
  intro hk
  set s := List.insertionSort leLastAccessed l with hs
  set m := l.length / 5 with hm
  have hperm : List.Perm s l := List.perm_insertionSort leLastAccessed l
  have hsnd : (s.map Prod.fst).Nodup := ((hperm.map Prod.fst).nodup_iff).mpr hnd
  obtain ⟨q, hqtake, hqfst⟩ := List.mem_map.mp hk
  have hqs : q ∈ s := List.mem_of_mem_take hqtake
  have hql : q ∈ l := hperm.subset hqs
  have hq : q = (k, e) := by
    obtain ⟨q1, q2⟩ := q
    dsimp at hqfst
    subst hqfst
    rw [lookupKey_unique hnd hql hmem]
  subst hq
  have hlen : m < s.length := by
    rw [hperm.length_eq, hm]
    have hpos : 0 < l.length := List.length_pos.mpr (List.ne_nil_of_mem hmem)
    exact Nat.div_lt_self hpos (by omega)
  have hdropne : s.drop m ≠ [] := by
    intro hnil
    have := List.length_drop m s
    rw [hnil] at this
    simp at this
    omega
  obtain ⟨z, hz⟩ := List.exists_mem_of_ne_nil _ hdropne
  have hsorted : List.Pairwise leLastAccessed s := List.sorted_insertionSort leLastAccessed l
  have hrel : leLastAccessed (k, e) z := by
    have hsplit : s.take m ++ s.drop m = s := List.take_append_drop m s
    rw [← hsplit] at hsorted
    exact (List.pairwise_append.mp hsorted).2.2 (k, e) hqtake z hz
  have hzs : z ∈ s := List.mem_of_mem_drop hz
  have hzl : z ∈ l := hperm.subset hzs
  by_cases hz1 : z.1 = k
  · -- a second entry with key `k` would contradict key uniqueness
    have hcount : ¬ (s.map Prod.fst).Nodup := by
      have hsplit : s.take m ++ s.drop m = s := List.take_append_drop m s
      intro hnd2
      rw [← hsplit, List.map_append] at hnd2
      have hdisj := (List.nodup_append.mp hnd2).2.2
      exact hdisj (List.mem_map.mpr ⟨(k, e), hqtake, rfl⟩)
        (List.mem_map.mpr ⟨z, hz, hz1⟩)
    exact hcount hsnd
  · have := hmax z hzl hz1
    unfold leLastAccessed at hrel
    dsimp at hrel
    omega

theorem checkCacheLimits_lookup (st : CMState) (k : String)
    (hnin : ¬ k ∈ ((cleanupVictims st).map Prod.fst)) :
    lookupKey (checkCacheLimits st).cacheMap k = lookupKey st.cacheMap k
    ∧ lookupKey (checkCacheLimits st).files k = lookupKey st.files k := by
  unfold checkCacheLimits
  split
  · unfold cleanupCache
    constructor
    · rw [foldlDelete_cacheMap]
      exact lookupKey_filter_not_mem _ _ _ hnin
    · exact foldlDelete_files_lookup _ _ _ hnin
  · exact ⟨rfl, rfl⟩

theorem cmSet_lookup_self (st : CMState) (k data : String) (now : Nat)
    (hnd : (st.cacheMap.map Prod.fst).Nodup)
    (hfresh : ∀ p ∈ st.cacheMap, p.2.lastAccessed < now) :
    lookupKey (cmSet st k data now).cacheMap k = some (newCacheEntry k data now)
    ∧ lookupKey (cmSet st k data now).files k = some data := by
  have hnd1 : ((setKey st.cacheMap k (newCacheEntry k data now)).map Prod.fst).Nodup :=
    keys_nodup_setKey hnd
  have hmax1 : ∀ p ∈ setKey st.cacheMap k (newCacheEntry k data now), p.1 ≠ k →
      p.2.lastAccessed < (newCacheEntry k data now).lastAccessed := by
    intro p hp hpk
    rcases mem_setKey hp with h | ⟨h, _⟩
    · exact absurd (by rw [h]) hpk
    · exact hfresh p h
  have hnin : ¬ k ∈ ((cleanupVictims
      { st with files := setKey st.files k data,
                cacheMap := setKey st.cacheMap k (newCacheEntry k data now) }).map Prod.fst) := by
    unfold cleanupVictims
    dsimp only
    exact max_key_not_in_victims _ k _ hnd1
      (mem_of_lookupKey_eq_some (lookupKey_setKey_self _ _ _)) hmax1
  obtain ⟨h1, h2⟩ := checkCacheLimits_lookup _ k hnin
  unfold cmSet
  refine ⟨?_, ?_⟩
  · rw [h1]
    exact lookupKey_setKey_self _ _ _
  · rw [h2]
    exact lookupKey_setKey_self _ _ _

theorem cmSet_cacheMap_mem {st : CMState} {k data : String} {now : Nat} {p : String × CacheEntry}
    (hp : p ∈ (cmSet st k data now).cacheMap) :
    p = (k, newCacheEntry k data now) ∨ (p ∈ st.cacheMap ∧ p.1 ≠ k) := by
  unfold cmSet at hp
  exact mem_setKey (mem_checkCacheLimits hp)

theorem cmSet_keys_nodup {st : CMState} {k data : String} {now : Nat}
    (hnd : (st.cacheMap.map Prod.fst).Nodup) :
    ((cmSet st k data now).cacheMap.map Prod.fst).Nodup := by
  unfold cmSet
  exact keys_nodup_checkCacheLimits (keys_nodup_setKey hnd)

/-- **C4.** Cache round-trip and last-write-wins: under unique index keys and a
current timestamp newer than every recorded access (JS `Date.now()` is
monotone), `set k v` then `get k` returns `v`; `set k v` then `set k v2` then
`get k` returns `v2`; and every hit rewrites the entry with the read time as
`lastAccessed` and an incremented `accessCount`. -/
theorem c4_cache_round_trip (st : CMState) (k v v2 : String) (now now2 tq : Nat)
    (hnd : (st.cacheMap.map Prod.fst).Nodup)
    (hfresh : ∀ p ∈ st.cacheMap, p.2.lastAccessed < now)
    (hlt : now < now2) :
    (cmGet (cmSet st k v now) k tq).1 = some v
    ∧ (cmGet (cmSet (cmSet st k v now) k v2 now2) k tq).1 = some v2
    ∧ (∀ (st' : CMState) (e : CacheEntry) (data : String),
        lookupKey st'.cacheMap k = some e → lookupKey st'.files k = some data →
        (cmGet st' k tq).1 = some data ∧
        lookupKey ((cmGet st' k tq).2).cacheMap k
          = some { e with lastAccessed := tq, accessCount := e.accessCount + 1 }) := by
  have bump : ∀ (st' : CMState) (e : CacheEntry) (data : String),
      lookupKey st'.cacheMap k = some e → lookupKey st'.files k = some data →
      (cmGet st' k tq).1 = some data ∧
      lookupKey ((cmGet st' k tq).2).cacheMap k
        = some { e with lastAccessed := tq, accessCount := e.accessCount + 1 } := by
    intro st' e data he hd
    unfold cmGet
    rw [he, hd]
    refine ⟨rfl, ?_⟩
    exact lookupKey_mapReplace_self _ (by rw [he]; rfl)
  have h1 := cmSet_lookup_self st k v now hnd hfresh
  refine ⟨(bump _ _ _ h1.1 h1.2).1, ?_, bump⟩
  have hnd1 : ((cmSet st k v now).cacheMap.map Prod.fst).Nodup := cmSet_keys_nodup hnd
  have hfresh1 : ∀ p ∈ (cmSet st k v now).cacheMap, p.2.lastAccessed < now2 := by
    intro p hp
    rcases cmSet_cacheMap_mem hp with h | ⟨h, _⟩
    · rw [h]
      exact hlt
    · exact Nat.lt_trans (hfresh p h) hlt
  have h2 := cmSet_lookup_self (cmSet st k v now) k v2 now2 hnd1 hfresh1
  exact (bump _ _ _ h2.1 h2.2).1

/-- Witness for C4 starting from the constructor state. -/
theorem c4_witness :
    (cmGet (cmSet cacheManagerInit "k" "v1" 1) "k" 3).1 = some "v1"
    ∧ (cmGet (cmSet (cmSet cacheManagerInit "k" "v1" 1) "k" "v2" 2) "k" 3).1 = some "v2" := by
  have h := c4_cache_round_trip cacheManagerInit "k" "v1" "v2" 1 2 3
    (by decide) (by intro p hp; simp [cacheManagerInit] at hp) (by decide)
  exact ⟨h.1, h.2.1⟩

/-- **C5.** Eviction triggers on a `Put` exactly when the entry count or the
total payload bytes strictly exceed their configured maxima, and then removes
precisely the least-recently-accessed `⌊0.2 · n⌋` entries: every evicted entry
was accessed no later than every survivor. -/
theorem c5_eviction_policy (st : CMState) :
    ((st.cacheMap.length ≤ st.maxEntries ∧ getTotalCacheSize st ≤ st.maxCacheSize) →
        checkCacheLimits st = st)
    ∧ ((st.maxEntries < st.cacheMap.length ∨ st.maxCacheSize < getTotalCacheSize st) →
        (checkCacheLimits st).cacheMap
            = st.cacheMap.filter (fun p => decide (¬ p.1 ∈ (cleanupVictims st).map Prod.fst))
          ∧ (cleanupVictims st).length = st.cacheMap.length / 5
          ∧ ∀ p ∈ cleanupVictims st, ∀ q ∈ (checkCacheLimits st).cacheMap,
              p.2.lastAccessed ≤ q.2.lastAccessed) := by
  constructor
  · intro h
    unfold checkCacheLimits
    rw [if_neg (by omega)]
  · intro htrig
    have hch : checkCacheLimits st = cleanupCache st := by
      unfold checkCacheLimits
      rw [if_pos (by omega)]
    refine ⟨?_, ?_, ?_⟩
    · rw [hch]
      unfold cleanupCache
      exact foldlDelete_cacheMap _ _
    · unfold cleanupVictims
      rw [List.length_take, (List.perm_insertionSort leLastAccessed st.cacheMap).length_eq]
      exact Nat.min_eq_left (Nat.div_le_self _ _)
    · intro p hp q hq
      rw [hch] at hq
      unfold cleanupCache at hq
      rw [foldlDelete_cacheMap] at hq
      have hq1 := List.mem_of_mem_filter hq
      have hq2 : ¬ q.1 ∈ ((cleanupVictims st).map Prod.fst) := by
        simpa using List.of_mem_filter hq
      have hqs : q ∈ List.insertionSort leLastAccessed st.cacheMap :=
        ((List.perm_insertionSort leLastAccessed st.cacheMap).mem_iff).mpr hq1
      have hsplit := List.take_append_drop (st.cacheMap.length / 5)
        (List.insertionSort leLastAccessed st.cacheMap)
      have hqd : q ∈ (List.insertionSort leLastAccessed st.cacheMap).drop
          (st.cacheMap.length / 5) := by
        rcases List.mem_append.mp (by rw [hsplit]; exact hqs) with h | h
        · exact absurd (List.mem_map.mpr ⟨q, h, rfl⟩) hq2
        · exact h
      have hsorted : List.Pairwise leLastAccessed
          (List.insertionSort leLastAccessed st.cacheMap) :=
        List.sorted_insertionSort leLastAccessed st.cacheMap
      rw [← hsplit] at hsorted
      exact (List.pairwise_append.mp hsorted).2.2 p hp q hqd

/-- Witness for C5 at a cache one entry over its entry limit. -/
theorem c5_witness :
    stCacheOver.maxEntries < stCacheOver.cacheMap.length
    ∧ (checkCacheLimits stCacheOver).cacheMap
        = stCacheOver.cacheMap.filter
            (fun p => decide (¬ p.1 ∈ (cleanupVictims stCacheOver).map Prod.fst))
    ∧ (cleanupVictims stCacheOver).length = stCacheOver.cacheMap.length / 5 := by
  have h := (c5_eviction_policy stCacheOver).2 (Or.inl (by decide))
  exact ⟨by decide, h.1, h.2.1⟩

/-! ### Dispatcher lemmas -/

theorem checkRateLimit_eq (st : AMState) (provider : String) (now : Nat) (cfg : ApiConfig)
    (hc : lookupKey st.configs provider = some cfg) :
    checkRateLimit st provider now =
      if (recentWindow st provider now).length ≥ cfg.rateLimit then (false, st)
      else
        (true,
          { st with
            rateLimiter :=
              setKey st.rateLimiter provider (recentWindow st provider now ++ [now]) }) := by
  unfold checkRateLimit
  rw [hc]

theorem checkRateLimit_preserves (st : AMState) (provider : String) (now : Nat) :
    (checkRateLimit st provider now).2.configs = st.configs
    ∧ (checkRateLimit st provider now).2.currentProviderId = st.currentProviderId := by
  rcases hc : lookupKey st.configs provider with _ | cfg
  · unfold checkRateLimit
    rw [hc]
    exact ⟨rfl, rfl⟩
  · rw [checkRateLimit_eq st provider now cfg hc]
    by_cases hf : (recentWindow st provider now).length ≥ cfg.rateLimit
    · rw [if_pos hf]
      exact ⟨rfl, rfl⟩
    · rw [if_neg hf]
      exact ⟨rfl, rfl⟩

/-- With both providers of `twoFailingState` configured and every call failing,
the `try` block always throws, and the state at the throw still has the same
config registry and current provider. -/
theorem attemptCall_fails_two (st : AMState) (req : ApiRequest) (now : Nat)
    (hcfg : st.configs = twoFailingState.configs)
    (hcur : st.currentProviderId = "doubao" ∨ st.currentProviderId = "gemini") :
    ∃ msg st1, attemptCall (fun _ => none) now req st = Except.error (msg, st1)
      ∧ st1.configs = st.configs ∧ st1.currentProviderId = st.currentProviderId := by
  have hpres := checkRateLimit_preserves st st.currentProviderId now
  rcases hcur with h | h
  · have hl : lookupKey st.configs st.currentProviderId = some doubaoEnabled := by
      rw [h, hcfg]; rfl
    unfold attemptCall
    rw [hl]
    dsimp only
    rw [if_neg (by decide)]
    rcases hrl : checkRateLimit st st.currentProviderId now with ⟨ok, st1⟩
    rw [hrl] at hpres
    cases ok
    · exact ⟨_, st1, rfl, hpres.1, hpres.2⟩
    · dsimp only
      rw [if_pos (by decide)]
      exact ⟨_, st1, rfl, hpres.1, hpres.2⟩
  · have hl : lookupKey st.configs st.currentProviderId = some geminiEnabled := by
      rw [h, hcfg]; rfl
    unfold attemptCall
    rw [hl]
    dsimp only
    rw [if_neg (by decide)]
    rcases hrl : checkRateLimit st st.currentProviderId now with ⟨ok, st1⟩
    rw [hrl] at hpres
    cases ok
    · exact ⟨_, st1, rfl, hpres.1, hpres.2⟩
    · dsimp only
      rw [if_pos (by decide)]
      exact ⟨_, st1, rfl, hpres.1, hpres.2⟩

/-- **C1.** The claim says `processImage` caps total failover hops at the
number of enabled providers, so with two enabled, perpetually failing providers
it recurses exactly once and returns a terminal error. Counter-evaluation: the
`catch` block's pool excludes only the *current* provider, so with the two
enabled, credentialed providers of `twoFailingState` the call flips
`currentProviderId` back and forth and recurses at every depth — the fuelled
interpreter returns no answer for any amount of fuel. The second conjunct shows
the embedding does terminate (one level of fuel suffices) when no alternate
enabled provider exists, so the non-termination above is caused solely by the
unbounded mutual failover. -/
theorem c1_failover_recursion_unbounded :
    (∀ (fuel : Nat) (st : AMState) (req : ApiRequest) (now : Nat),
        st.configs = twoFailingState.configs →
        (st.currentProviderId = "doubao" ∨ st.currentProviderId = "gemini") →
        processImageFuel (fun _ => none) now req fuel st = none)
    ∧ processImageFuel (fun _ => none) 0 testRequest 1 (initApiManager "key-a" "")
        = some ({ success := false, error := some "API call failed", processingTime := 0 },
                { initApiManager "key-a" "" with rateLimiter := [("doubao", [0])] }) := by
  constructor
  · intro fuel
    induction fuel with
    | zero =>
      intro st req now _ _
      rfl
    | succ n ih =>
      intro st req now hcfg hcur
      obtain ⟨msg, st1, herr, hcfg1, hcur1⟩ := attemptCall_fails_two st req now hcfg hcur
      rw [show processImageFuel (fun _ => none) now req (Nat.succ n) st
          = (match attemptCall (fun _ => none) now req st with
             | .ok r => some r
             | .error (msg, st1) =>
               match availableProviders st1 with
               | fallback :: _ =>
                 processImageFuel (fun _ => none) now req n
                   { st1 with currentProviderId := fallback.id }
               | [] => some ({ success := false, error := some msg, processingTime := 0 }, st1))
          from rfl, herr]
      dsimp only
      rcases hcur with h | h
      · have havail : availableProviders st1 = [geminiEnabled] := by
          unfold availableProviders
          rw [hcfg1, hcfg, hcur1, h]
          rfl
        rw [havail]
        exact ih _ req now (by rw [hcfg1, hcfg]) (Or.inr rfl)
      · have havail : availableProviders st1 = [doubaoEnabled] := by
          unfold availableProviders
          rw [hcfg1, hcfg, hcur1, h]
          rfl
        rw [havail]
        exact ih _ req now (by rw [hcfg1, hcfg]) (Or.inl rfl)
  · rfl

/-- Witness for C1: at fuel 3 the two-provider all-failing dispatch still has
not produced an answer. -/
theorem c1_witness :
    processImageFuel (fun _ => none) 0 testRequest 3 twoFailingState = none :=
  c1_failover_recursion_unbounded.1 3 twoFailingState testRequest 0 rfl (Or.inl rfl)

/-- **C9.** `removeCustomProvider` returns false and changes nothing for any id
that is unregistered or not custom; consequently, starting from the constructor
state, the two built-in providers survive every sequence of add/remove
operations (custom ids all start with `custom_`, which is longer than either
built-in id). -/
theorem c9_builtins_cannot_be_removed :
    (∀ (st : AMState) (id : String),
        (∀ c, lookupKey st.configs id = some c → c.isCustom = false) →
        removeCustomProvider st id = (false, st))
    ∧ (∀ (doubaoKey geminiKey : String) (ops : List AMOp),
        hasBuiltins (runAMOps (initApiManager doubaoKey geminiKey) ops)) := by
  have hstep : ∀ (st : AMState) (op : AMOp), hasBuiltins st → hasBuiltins (applyAMOp st op) := by
    intro st op h
    obtain ⟨⟨cd, hcd, hcdc⟩, ⟨cg, hcg, hcgc⟩⟩ := h
    cases op with
    | add cfg now =>
      have hd : ("doubao" : String) ≠ "custom_" ++ toString now := by
        intro he
        have hlen := congrArg String.length he
        rw [String.length_append] at hlen
        have h6 : ("doubao" : String).length = 6 := rfl
        have h7 : ("custom_" : String).length = 7 := rfl
        omega
      have hg : ("gemini" : String) ≠ "custom_" ++ toString now := by
        intro he
        have hlen := congrArg String.length he
        rw [String.length_append] at hlen
        have h6 : ("gemini" : String).length = 6 := rfl
        have h7 : ("custom_" : String).length = 7 := rfl
        omega
      refine ⟨⟨cd, ?_, hcdc⟩, ⟨cg, ?_, hcgc⟩⟩
      · show lookupKey (setKey st.configs _ _) "doubao" = some cd
        rw [lookupKey_setKey_ne _ _ hd]
        exact hcd
      · show lookupKey (setKey st.configs _ _) "gemini" = some cg
        rw [lookupKey_setKey_ne _ _ hg]
        exact hcg
    | remove id =>
      show hasBuiltins (removeCustomProvider st id).2
      unfold removeCustomProvider
      rcases hl : lookupKey st.configs id with _ | c
      · exact ⟨⟨cd, hcd, hcdc⟩, ⟨cg, hcg, hcgc⟩⟩
      · by_cases hcus : c.isCustom = true
        · have hdne : ("doubao" : String) ≠ id := by
            intro he
            rw [← he, hcd] at hl
            have hcc : cd = c := Option.some.inj hl
            rw [← hcc, hcdc] at hcus
            exact Bool.false_ne_true hcus
          have hgne : ("gemini" : String) ≠ id := by
            intro he
            rw [← he, hcg] at hl
            have hcc : cg = c := Option.some.inj hl
            rw [← hcc, hcgc] at hcus
            exact Bool.false_ne_true hcus
          dsimp only
          rw [if_pos hcus]
          refine ⟨⟨cd, ?_, hcdc⟩, ⟨cg, ?_, hcgc⟩⟩
          · show lookupKey (eraseKey st.configs id) "doubao" = some cd
            rw [lookupKey_eraseKey, if_neg hdne]
            exact hcd
          · show lookupKey (eraseKey st.configs id) "gemini" = some cg
            rw [lookupKey_eraseKey, if_neg hgne]
            exact hcg
        · dsimp only
          rw [if_neg hcus]
          exact ⟨⟨cd, hcd, hcdc⟩, ⟨cg, hcg, hcgc⟩⟩
  constructor
  · intro st id h
    unfold removeCustomProvider
    rcases hl : lookupKey st.configs id with _ | c
    · rfl
    · have hfalse := h c hl
      dsimp only
      rw [if_neg (by rw [hfalse]; exact Bool.false_ne_true)]
  · intro dk gk ops
    have hrun : ∀ (ops : List AMOp) (st : AMState),
        hasBuiltins st → hasBuiltins (runAMOps st ops) := by
      intro ops
      induction ops with
      | nil => intro st h; exact h
      | cons op ops ih => intro st h; exact ih _ (hstep st op h)
    exact hrun ops _ ⟨⟨doubaoConfig dk, rfl, rfl⟩, ⟨geminiConfig gk, rfl, rfl⟩⟩

/-- Witness for C9: removing a built-in id fails and changes nothing, and the
built-ins are still registered after an add/remove sequence. -/
theorem c9_witness :
    removeCustomProvider (initApiManager "k" "g") "doubao" = (false, initApiManager "k" "g")
    ∧ hasBuiltins (runAMOps (initApiManager "k" "g")
        [AMOp.remove "doubao", AMOp.add (doubaoConfig "x") 5, AMOp.remove "custom_5"]) := by
  constructor
  · refine c9_builtins_cannot_be_removed.1 _ _ ?_
    intro c hc
    rw [show lookupKey (initApiManager "k" "g").configs "doubao" = some (doubaoConfig "k")
        from rfl] at hc
    rw [← Option.some.inj hc]
    rfl
  · exact c9_builtins_cannot_be_removed.2 "k" "g" _

/-- **C10.** A rate-limited rejection consumes no capacity: with the provider's
window already full, `checkRateLimit` returns false with the state unchanged,
so a call sequence behaves exactly as if the rejected call had never been
issued. -/
theorem c10_rejection_consumes_no_capacity (st : AMState) (provider : String) (now : Nat)
    (cfg : ApiConfig) (hc : lookupKey st.configs provider = some cfg)
    (hfull : cfg.rateLimit ≤ (recentWindow st provider now).length) :
    checkRateLimit st provider now = (false, st)
    ∧ ∀ calls : List Nat, runCalls st provider (now :: calls) = runCalls st provider calls := by
  have h1 : checkRateLimit st provider now = (false, st) := by
    rw [checkRateLimit_eq st provider now cfg hc, if_pos hfull]
  refine ⟨h1, ?_⟩
  intro calls
  rw [show runCalls st provider (now :: calls)
      = (match checkRateLimit st provider now with
         | (ok, st1) =>
           match runCalls st1 provider calls with
           | (stFinal, admitted) => (stFinal, if ok then now :: admitted else admitted))
      from rfl, h1]
  dsimp only
  rcases h2 : runCalls st provider calls with ⟨stF, adm⟩
  rfl

/-- Witness for C10 at a full doubao window. -/
theorem c10_witness :
    checkRateLimit fullWindowState "doubao" 500 = (false, fullWindowState)
    ∧ runCalls fullWindowState "doubao" [500, 600] = runCalls fullWindowState "doubao" [600] := by
  have h := c10_rejection_consumes_no_capacity fullWindowState "doubao" 500
    (doubaoConfig "key-a") rfl (by decide)
  exact ⟨h.1, h.2 [600]⟩

/-- **C8.** The claim says a change event on an already-claimed path re-triggers
processing and submits a new job. Counter-evaluation: `handleFileChanged` does
delegate to `handleFileAdded` (first conjunct), but that handler returns
immediately for a path in `processedFiles`, so editing an already-processed
file leaves the state — submissions included — untouched. -/
theorem c8_change_event_skips_processed_paths :
    (∀ (regexTest : String → String → Bool) (st : HFState) (p n : String) (sz : Nat),
        handleFileChanged regexTest st p n sz = handleFileAdded regexTest st p n sz)
    ∧ "/in/a.jpg" ∈ hfProcessed.processedFiles
    ∧ handleFileChanged (fun _ _ => true) hfProcessed "/in/a.jpg" "a.jpg" 4096 = hfProcessed
    ∧ (handleFileChanged (fun _ _ => true) hfProcessed "/in/a.jpg" "a.jpg" 4096).submissions
        = hfProcessed.submissions := by
  refine ⟨fun _ _ _ _ _ => rfl, by decide, by decide, by decide⟩

/-! ### Rate-limit window lemmas -/

theorem count_filter_eq (p : Nat → Bool) (l : List Nat) (s : Nat) :
    (l.filter p).count s = if p s then l.count s else 0 := by
  by_cases h : p s = true
  · rw [if_pos h]
    exact List.count_filter h
  · rw [if_neg h]
    exact List.count_eq_zero.mpr (fun hc => h (List.of_mem_filter hc))

theorem length_le_of_count_le {l₁ l₂ : List Nat}
    (h : ∀ s ∈ l₁, l₁.count s ≤ l₂.count s) : l₁.length ≤ l₂.length :=
  (List.subperm_ext_iff.mpr h).length_le

theorem runCalls_admitted_sublist (calls : List Nat) (st : AMState) (provider : String) :
    List.Sublist (runCalls st provider calls).2 calls := by
  induction calls generalizing st with
  | nil => exact List.Sublist.refl _
  | cons t ts ih =>
    rw [show runCalls st provider (t :: ts)
        = (match checkRateLimit st provider t with
           | (ok, st1) =>
             match runCalls st1 provider ts with
             | (stFinal, admitted) => (stFinal, if ok then t :: admitted else admitted))
        from rfl]
    rcases h1 : checkRateLimit st provider t with ⟨ok, st1⟩
    dsimp only
    have hih := ih st1
    rcases h2 : runCalls st1 provider ts with ⟨stF, adm⟩
    rw [h2] at hih
    cases ok
    · dsimp only
      exact List.Sublist.cons t hih
    · dsimp only
      exact List.Sublist.cons₂ t hih

/-- Main induction for C6: if every 1-second window of the already admitted
calls `adm` holds at most `rateLimit` of them, and the stored window dominates
the fresh part of `adm`, then feeding any further monotone call sequence keeps
every 1-second window at or below `rateLimit` admitted calls. -/
theorem c6_invariant (provider : String) (cfg : ApiConfig) :
    ∀ (calls : List Nat) (st : AMState) (adm : List Nat) (tprev : Nat),
    lookupKey st.configs provider = some cfg →
    List.Pairwise (fun a b => a ≤ b) calls →
    (∀ t ∈ calls, tprev ≤ t) →
    (∀ s ∈ adm, s ≤ tprev) →
    (∀ s : Nat, (adm.filter (fun a => decide (tprev - a < 1000))).count s
        ≤ ((lookupKey st.rateLimiter provider).getD []).count s) →
    (∀ x, (adm.filter (inWindow x)).length ≤ cfg.rateLimit) →
    ∀ x, ((adm ++ (runCalls st provider calls).2).filter (inWindow x)).length
        ≤ cfg.rateLimit := by
  intro calls
  induction calls with
  | nil =>
    intro st adm tprev _ _ _ _ _ hJ x
    simpa [runCalls] using hJ x
  | cons t ts ih =>
    intro st adm tprev hc hchain hge hadm hcount hJ x
    obtain ⟨hts, hchain2⟩ := List.pairwise_cons.mp hchain
    have htprev : tprev ≤ t := hge t (List.mem_cons_self _ _)
    have hadm_t : ∀ s ∈ adm, s ≤ t := fun s hs => Nat.le_trans (hadm s hs) htprev
    have hshrink : ∀ s : Nat, (adm.filter (fun a => decide (t - a < 1000))).count s
        ≤ (adm.filter (fun a => decide (tprev - a < 1000))).count s := by
      intro s
      rw [count_filter_eq, count_filter_eq]
      by_cases hs : t - s < 1000
      · rw [if_pos (by simpa using hs), if_pos (by simp only [decide_eq_true_eq]; omega)]
      · rw [if_neg (by simpa using hs)]
        exact Nat.zero_le _
    rw [show runCalls st provider (t :: ts)
        = (match checkRateLimit st provider t with
           | (ok, st1) =>
             match runCalls st1 provider ts with
             | (stFinal, admitted) => (stFinal, if ok then t :: admitted else admitted))
        from rfl, checkRateLimit_eq st provider t cfg hc]
    by_cases hfull : (recentWindow st provider t).length ≥ cfg.rateLimit
    · rw [if_pos hfull]
      dsimp only
      rcases h2 : runCalls st provider ts with ⟨stF, adm2⟩
      dsimp only
      have hres := ih st adm t hc hchain2 hts hadm_t
        (fun s => Nat.le_trans (hshrink s) (hcount s)) hJ x
      rw [h2] at hres
      exact hres
    · rw [if_neg hfull]
      dsimp only
      rcases h2 : runCalls ({ st with rateLimiter := setKey st.rateLimiter provider (recentWindow st provider t ++ [t]) } : AMState) provider ts with ⟨stF, adm2⟩
      dsimp only
      have hlt : (recentWindow st provider t).length < cfg.rateLimit :=
        Nat.lt_of_not_le hfull
      have hc1 : lookupKey ({ st with rateLimiter := setKey st.rateLimiter provider (recentWindow st provider t ++ [t]) } : AMState).configs provider = some cfg := hc
      have hadm1 : ∀ s ∈ adm ++ [t], s ≤ t := by
        intro s hs
        rcases List.mem_append.mp hs with h | h
        · exact hadm_t s h
        · rw [List.mem_singleton.mp h]
      have hwin1 : (lookupKey ({ st with rateLimiter := setKey st.rateLimiter provider (recentWindow st provider t ++ [t]) } : AMState).rateLimiter provider).getD [] = recentWindow st provider t ++ [t] := by
        show (lookupKey (setKey st.rateLimiter provider _) provider).getD [] = _
        rw [lookupKey_setKey_self]
        rfl
      have hcount1 : ∀ s : Nat,
          ((adm ++ [t]).filter (fun a => decide (t - a < 1000))).count s
          ≤ ((lookupKey ({ st with rateLimiter := setKey st.rateLimiter provider (recentWindow st provider t ++ [t]) } : AMState).rateLimiter provider).getD []).count s := by
        intro s
        rw [hwin1, List.filter_append, List.count_append, List.count_append]
        rw [show List.filter (fun a => decide (t - a < 1000)) [t] = [t] by
          simp [Nat.sub_self]]
        apply Nat.add_le_add_right
        rw [count_filter_eq]
        by_cases hs : t - s < 1000
        · rw [if_pos (by simpa using hs)]
          have h1 : adm.count s
              = (adm.filter (fun a => decide (tprev - a < 1000))).count s := by
            rw [count_filter_eq, if_pos (by simp only [decide_eq_true_eq]; omega)]
          have h3 : (recentWindow st provider t).count s
              = ((lookupKey st.rateLimiter provider).getD []).count s := by
            unfold recentWindow
            rw [count_filter_eq, if_pos (by simpa using hs)]
          rw [h1, h3]
          exact hcount s
        · rw [if_neg (by simpa using hs)]
          exact Nat.zero_le _
      have hJ1 : ∀ y, ((adm ++ [t]).filter (inWindow y)).length ≤ cfg.rateLimit := by
        intro y
        rw [List.filter_append, List.length_append]
        cases hwt : inWindow y t
        · rw [show List.filter (inWindow y) [t] = [] by simp [hwt]]
          simpa using hJ y
        · rw [show List.filter (inWindow y) [t] = [t] by simp [hwt]]
          have hyt : y ≤ t ∧ t < y + 1000 := by
            have h4 := hwt
            unfold inWindow at h4
            simpa [Bool.and_eq_true, decide_eq_true_eq] using h4
          have hsub : (adm.filter (inWindow y)).length
              ≤ (recentWindow st provider t).length := by
            apply length_le_of_count_le
            intro s hsf
            have hsmem := List.mem_of_mem_filter hsf
            have hsw := List.of_mem_filter hsf
            have hys : y ≤ s := by
              unfold inWindow at hsw
              simp only [Bool.and_eq_true, decide_eq_true_eq] at hsw
              exact hsw.1
            have hst2 : s ≤ t := hadm_t s hsmem
            have hfresh_t : t - s < 1000 := by omega
            have h1 : adm.count s
                = (adm.filter (fun a => decide (tprev - a < 1000))).count s := by
              rw [count_filter_eq, if_pos (by simp only [decide_eq_true_eq]; omega)]
            have h3 : (recentWindow st provider t).count s
                = ((lookupKey st.rateLimiter provider).getD []).count s := by
              unfold recentWindow
              rw [count_filter_eq, if_pos (by simpa using hfresh_t)]
            calc (adm.filter (inWindow y)).count s
                ≤ adm.count s := (List.filter_sublist adm).count_le s
              _ ≤ (recentWindow st provider t).count s := by rw [h1, h3]; exact hcount s
          simp only [List.length_singleton]
          omega
      have hres := ih _ (adm ++ [t]) t hc1 hchain2 hts hadm1 hcount1 hJ1 x
      rw [h2] at hres
      rw [if_pos rfl, show adm ++ t :: adm2 = (adm ++ [t]) ++ adm2 by simp]
      exact hres

/-- **C6.** Sliding-window rate limiting as a never-property: starting from a
fresh window and feeding any monotone sequence of call timestamps to
`checkRateLimit`, every 1-second window contains at most `rateLimit` admitted
calls; in particular `rateLimit + 1` calls issued within one second get at
least one rejection. -/
theorem c6_rate_limit_never_exceeded (st : AMState) (provider : String) (cfg : ApiConfig)
    (calls : List Nat)
    (hc : lookupKey st.configs provider = some cfg)
    (hwin : (lookupKey st.rateLimiter provider).getD [] = [])
    (hmono : List.Pairwise (fun a b => a ≤ b) calls) :
    (∀ x, ((runCalls st provider calls).2.filter (inWindow x)).length ≤ cfg.rateLimit)
    ∧ (∀ x, (∀ t ∈ calls, inWindow x t = true) → calls.length = cfg.rateLimit + 1 →
        (runCalls st provider calls).2.length < calls.length) := by
  have hmain : ∀ x, ((runCalls st provider calls).2.filter (inWindow x)).length
      ≤ cfg.rateLimit := by
    intro x
    have h := c6_invariant provider cfg calls st [] 0 hc hmono
      (fun t _ => Nat.zero_le t) (by intro s hs; cases hs)
      (by intro s; rw [hwin]; exact Nat.le_refl _) (by intro y; exact Nat.zero_le _) x
    simpa using h
  refine ⟨hmain, ?_⟩
  intro x hx hlen
  have hsub := runCalls_admitted_sublist calls st provider
  have hall : ∀ s ∈ (runCalls st provider calls).2, inWindow x s = true :=
    fun s hs => hx s (hsub.subset hs)
  have heq : (runCalls st provider calls).2.filter (inWindow x)
      = (runCalls st provider calls).2 := List.filter_eq_self.mpr hall
  have h := hmain x
  rw [heq] at h
  omega

/-- Witness for C6: four simultaneous calls against doubao's limit of 3 admit
at most 3 of them. -/
theorem c6_witness :
    (runCalls (initApiManager "key-a" "key-b") "doubao" [0, 0, 0, 0]).2.length
      < ([0, 0, 0, 0] : List Nat).length := by
  exact (c6_rate_limit_never_exceeded (initApiManager "key-a" "key-b") "doubao"
    (doubaoConfig "key-a") [0, 0, 0, 0] rfl rfl (by decide)).2 0 (by decide) (by decide)
